import Mathlib

/-!
# TrainTrack configuration engine — a shallow embedding

This file embeds the configuration-resolution core of the TrainTrack
pipeline runner (`traintrack/utils/config_utils.py` and
`traintrack/utils/data_utils.py`) in Lean 4 and proves the testable
properties of its specification.

Python dictionaries are modelled as insertion-ordered association lists
(`Dict`), with `setKey` mirroring CPython item assignment (overwriting a
key keeps its position, a fresh key is appended) and `dictUpdate`
mirroring `dict.update`.  Python runtime values are modelled by the
inductive `Value`; Python floats are modelled as exact rationals, which
is adequate for every property proved here (none inspects float
arithmetic or float formatting).
-/

/-- A Python runtime value, as far as the configuration engine observes it.
Floats are modelled as exact rationals (`vRat`); the engine never does
float arithmetic, it only stores and stringifies values. -/
inductive Value where
  | vNone : Value
  | vBool (b : Bool) : Value
  | vInt (n : Int) : Value
  | vRat (q : Rat) : Value
  | vStr (s : String) : Value
  | vList (xs : List Value) : Value
  | vDict (d : List (String × Value)) : Value

/-- A Python `dict[str, Value]` as an insertion-ordered association list
with (by intent) unique keys. -/
abbrev Dict := List (String × Value)

/-- `d[k]` lookup: the first binding of `k` (bindings are unique in any
list built by `setKey`/`dictUpdate`). -/
def lookup : Dict → String → Option Value
  | [], _ => none
  | p :: rest, k => if p.1 = k then some p.2 else lookup rest k

/-- `d[k] = v` in CPython: overwriting a present key keeps its position,
a fresh key is appended at the end. -/
def setKey : Dict → String → Value → Dict
  | [], k, v => [(k, v)]
  | p :: rest, k, v => if p.1 = k then (k, v) :: rest else p :: setKey rest k v

/-- `d.update(e)`: assign every binding of `e` into `d`, in `e`'s order. -/
def dictUpdate (d e : Dict) : Dict :=
  e.foldl (fun acc p => setKey acc p.1 p.2) d

/-- The key sequence of a dict, in insertion order. -/
def keys (d : Dict) : List String := d.map Prod.fst

/-- Well-formedness of a dict: its keys are pairwise distinct (true of
every real Python dict). -/
def keysNodup (d : Dict) : Prop := (keys d).Nodup

instance (d : Dict) : Decidable (keysNodup d) := by
  unfold keysNodup; infer_instance

/-!
## ConfigResolver — `load_config` (config_utils.py)

The file/checkpoint reads are I/O; their parsed results enter the model
as parameters (`file_config`, `torch_load`).  The merge chain of
`load_config` (lines 154-159) and its inference-flag epilogue
(lines 160-165) are modelled verbatim as `merge_layers` and
`load_config_merge`; `load_config` itself dispatches on `resume_id`
exactly as the source does.
-/

/-- The command-line argument namespace, as `load_config` observes it:
`"inference" in run_args` is membership in the namespace, modelled by
`Option`; `batch` is always set by the CLI. -/
structure RunArgs where
  inference : Option Bool
  batch : Bool

/-- Lines 154-159 of `config_utils.py`:
`if "override" in stage.keys(): config.update(stage["override"])`, then
`config.update(project_config["libraries"])`, then `config.update(stage)`.
A present `override` value that is not itself a mapping would make the
Python `dict.update` raise; the theorems below only consider stages whose
`override`, when present, is a mapping. -/
def merge_layers (config stage libraries : Dict) : Dict :=
  let c :=
    match lookup stage "override" with
    | some (.vDict o) => dictUpdate config o
    | _ => config
  let c := dictUpdate c libraries
  dictUpdate c stage

/-- Lines 154-165 of `config_utils.py`: the merge chain followed by the
inference-flag policy
`if ("inference" in run_args) and run_args.inference: config["inference"] = True`
`elif ("inference" in run_args) and (not run_args.inference) and (not run_args.batch): config["inference"] = False`. -/
def load_config_merge (config stage libraries : Dict) (run_args : RunArgs) : Dict :=
  let c := merge_layers config stage libraries
  if run_args.inference = some true then
    setKey c "inference" (.vBool true)
  else if run_args.inference = some false ∧ run_args.batch = false then
    setKey c "inference" (.vBool false)
  else
    c

/-- A directory tree: name, subdirectories, plain files.  Models the
filesystem region that `os.walk` traverses. -/
inductive FSTree where
  | dir (name : String) (subdirs : List FSTree) (files : List String)

def FSTree.name : FSTree → String
  | .dir n _ _ => n

mutual

/-- `os.walk(p)` restricted to what `find_checkpoint` consumes: the
sequence of `(root_dir, dirs)` pairs in top-down traversal order,
recursing into subdirectories in listed order. -/
def walk (p : String) : FSTree → List (String × List String)
  | .dir _ subs _ => (p, subs.map FSTree.name) :: walkList p subs

/-- The walks of a list of sibling subdirectories, concatenated in order. -/
def walkList (p : String) : List FSTree → List (String × List String)
  | [] => []
  | t :: ts => walk (p ++ "/" ++ t.name) t ++ walkList p ts

end

/-- `find_checkpoint(run_id, path)` (config_utils.py lines 22-36): walk
the tree; at the first node whose subdirectory list contains `run_id`,
return `os.path.join(root_dir, run_id, "checkpoints/last.ckpt")`; no
check that the file exists.  `none` models the implicit `return None`. -/
def find_checkpoint (run_id : String) (path : String) (t : FSTree) : Option String :=
  (walk path t).findSome? fun rd =>
    if run_id ∈ rd.2 then some (rd.1 ++ "/" ++ run_id ++ "/checkpoints/last.ckpt")
    else none

mutual

/-- Whether some directory anywhere strictly below the root is named `r`
(the root itself is never listed by `os.walk` as a subdirectory). -/
def hasDirNamed (r : String) : FSTree → Bool
  | .dir _ subs _ => subs.any (fun s => s.name = r) || hasDirNamedAny r subs

/-- Whether some directory named `r` occurs below (or among) any tree in the list. -/
def hasDirNamedAny (r : String) : List FSTree → Bool
  | [] => false
  | t :: ts => hasDirNamed r t || hasDirNamedAny r ts

end

/-- Failure modes of `load_config` that the model distinguishes. -/
inductive LoadErr where
  | checkpointNotFound
  | badProjectConfig

/-- `load_config(stage, resume_id, project_config, run_args)`
(config_utils.py lines 119-167).  The two I/O reads are abstracted:
`file_config` is the parsed YAML of the located stage config file and
`torch_load` maps a checkpoint path to its `hyper_parameters` mapping.
In the fresh branch the source sets `config["logger"]` and
`config["resume_id"] = resume_id` (which is `None` there); in the resume
branch it sets `config["checkpoint_path"]`.  When `find_checkpoint`
returns `None`, the Python `torch.load(None, ...)` raises — modelled as
`checkpointNotFound`. -/
def load_config (resume_id : Option String) (file_config : Dict) (logger : Value)
    (artifact_tree : FSTree) (torch_load : String → Dict)
    (stage libraries : Dict) (run_args : RunArgs) : Except LoadErr Dict :=
  match resume_id with
  | none =>
      let config := setKey (setKey file_config "logger" logger) "resume_id" .vNone
      .ok (load_config_merge config stage libraries run_args)
  | some rid =>
      match lookup libraries "artifact_library" with
      | some (.vStr lib) =>
          match find_checkpoint rid lib artifact_tree with
          | none => .error .checkpointNotFound
          | some p =>
              let config := setKey (torch_load p) "checkpoint_path" (.vStr p)
              .ok (load_config_merge config stage libraries run_args)
      | _ => .error .badProjectConfig

/-!
## SweepExpander — `combo_config` (config_utils.py lines 171-191)
-/

/-- The sweep axis of one value:
`v if type(v) == list else [v]` — a list is used as-is, any other value
becomes a singleton sequence. -/
def asAxis : Value → List Value
  | .vList xs => xs
  | v => [v]

/-- `itertools.product(*values)`: leftmost axis varies slowest, exactly
the nesting `for x in axis: for rest-tuple in product(rest)`. -/
def cartProd : List (List Value) → List (List Value)
  | [] => [[]]
  | axis :: rest => axis.flatMap (fun x => (cartProd rest).map (fun b => x :: b))

/-- `combo_config(config)`: normalise every value to an axis, then
`keys, values = zip(*total_list.items())` — which raises `ValueError`
(modelled by `none`) when the mapping is empty — and build one dict per
product bundle via `dict(zip(keys, bundle))`. -/
def combo_config (config : Dict) : Option (List Dict) :=
  let total_list : List (String × List Value) :=
    config.map (fun p => (p.1, asAxis p.2))
  match total_list with
  | [] => none
  | _ :: _ =>
      let ks := total_list.map Prod.fst
      let values := total_list.map Prod.snd
      some ((cartProd values).map (fun bundle => ks.zip bundle))

/-!
## Python stringification and `more_itertools.collapse`

`dict_to_args` stringifies every collapsed entry with `str(...)`.
`pyRepr`/`pyStr` model Python's `repr`/`str` on the `Value` type;
the float case is display-only and is never relied on by a theorem
(Python's shortest-round-trip float repr is not reproduced).
-/

/-- The single-quote character, written by code point. -/
def pyQuote : String := String.singleton (Char.ofNat 39)

/-- Opening brace, written by code point. -/
def lBrace : String := String.singleton (Char.ofNat 123)

/-- Closing brace, written by code point. -/
def rBrace : String := String.singleton (Char.ofNat 125)

/-- Display form of a modelled float (`q.num/q.den`); Python's float
repr is not reproduced — no theorem below depends on this rendering. -/
def ratRepr (q : Rat) : String :=
  if q.den = 1 then toString q.num ++ ".0" else toString q.num ++ "/" ++ toString q.den

mutual

/-- Python `repr` on modelled values (string escaping is not modelled:
strings are assumed to contain no quotes or control characters). -/
def pyRepr : Value → String
  | .vNone => "None"
  | .vBool true => "True"
  | .vBool false => "False"
  | .vInt n => toString n
  | .vRat q => ratRepr q
  | .vStr s => pyQuote ++ s ++ pyQuote
  | .vList xs => "[" ++ String.intercalate ", " (pyReprList xs) ++ "]"
  | .vDict d => lBrace ++ String.intercalate ", " (pyReprItems d) ++ rBrace

/-- `repr` of each element of a list, in order. -/
def pyReprList : List Value → List String
  | [] => []
  | x :: xs => pyRepr x :: pyReprList xs

/-- `repr` of each `key: value` item of a dict, in order. -/
def pyReprItems : List (String × Value) → List String
  | [] => []
  | p :: ps => (pyQuote ++ p.1 ++ pyQuote ++ ": " ++ pyRepr p.2) :: pyReprItems ps

end

/-- Python `str`: the string itself for a string, `repr` otherwise
(containers display their elements with `repr`). -/
def pyStr (v : Value) : String :=
  match v with
  | .vStr s => s
  | v => pyRepr v

mutual

/-- `more_itertools.collapse` at one value: lists are flattened through
every nesting level; iterating a dict yields its keys; strings and all
other scalars are atoms. -/
def pyCollapse : Value → List Value
  | .vList xs => pyCollapseList xs
  | .vDict d => d.map (fun p => .vStr p.1)
  | v => [v]

/-- `collapse` of the elements of a list, concatenated in order. -/
def pyCollapseList : List Value → List Value
  | [] => []
  | x :: xs => pyCollapse x ++ pyCollapseList xs

end

/-!
## JobSubmitter — `dict_to_args` and `submit_batch` (config_utils.py)
-/

/-- `dict_to_args(config)` (lines 194-208):
`collapse([["--" + k, v] for k, v in config.items()])`, stringify every
collapsed entry, and join with single spaces. -/
def dict_to_args (config : Dict) : String :=
  let collapsed_list :=
    pyCollapseList (config.map (fun p => .vList [.vStr ("--" ++ p.1), p.2]))
  let collapsed_strs := collapsed_list.map pyStr
  String.intercalate " " collapsed_strs

/-- Modelled from the spec: the §4.4/§6 serialization contract read
literally — each key emits `--key`, a list value then emits one token
per element, any other value one token.  Stated only to be compared
with `dict_to_args`. -/
def dict_to_args_spec (config : Dict) : String :=
  String.intercalate " "
    (config.flatMap (fun p =>
      ("--" ++ p.1) ::
        match p.2 with
        | .vList xs => xs.map pyStr
        | v => [pyStr v]))

/-- Python truthiness of a modelled value. -/
def truthy : Value → Bool
  | .vNone => false
  | .vBool b => b
  | .vInt n => n ≠ 0
  | .vRat q => q ≠ 0
  | .vStr s => s ≠ ""
  | .vList xs => !xs.isEmpty
  | .vDict d => !d.isEmpty

/-- The project-wide configuration fields `submit_batch` reads. -/
structure ProjectConfig where
  serial : Bool
  custom_batch_setup : List String
  command_line_setup : List String

/-- What `submit_batch` hands to the scheduler client: the dependency
set on the `Slurm` object (if any), the submitted command text, and the
`sbatch_cmd` used to submit it. -/
structure Submission where
  dependency : Option (String × String)
  slurm_command : String
  sbatch_cmd : String

/-- `submit_batch(config, project_config, running_id)` (lines 55-98).
The batch-resource YAML read feeds only the `Slurm(**batch_config)`
constructor, which the claims never inspect, so it is not modelled.
`set_dependency(dict(afterok=running_id))` runs iff
`running_id is not None and project_config["serial"]`; the command is
the newline-joined `custom_batch_setup` followed by `"\n ttbatch "` and
the serialized arguments; `sbatch_cmd` chains `command_line_setup` with
`";"` before `"sbatch"` iff `config["batch_setup"]` is present and
truthy and `command_line_setup` is non-empty. -/
def submit_batch (config : Dict) (project_config : ProjectConfig)
    (running_id : Option String) : Submission :=
  let command_line_args := dict_to_args config
  let dependency :=
    match running_id with
    | some rid => if project_config.serial then some ("afterok", rid) else none
    | none => none
  let slurm_command :=
    String.intercalate "\n" project_config.custom_batch_setup
      ++ "\n ttbatch " ++ command_line_args
  let batch_setup_truthy :=
    match lookup config "batch_setup" with
    | some v => truthy v
    | none => false
  let sbatch_cmd :=
    if batch_setup_truthy && project_config.command_line_setup.length > 0 then
      String.intercalate ";" (project_config.command_line_setup ++ ["sbatch"])
    else "sbatch"
  { dependency := dependency, slurm_command := slurm_command, sbatch_cmd := sbatch_cmd }

/-!
## data_utils.py — `boolify`, `nullify`, `estimateType`, `autocast`

The casters raise `ValueError` on failure and `estimateType` catches
exactly that, so each caster is modelled as an `Option`.  Python's
`int()`/`float()` literal grammar is modelled for sign/digits/decimal
point/exponent (digit-group underscores and `inf`/`nan` are not
modelled; no theorem below depends on those forms).
-/

/-- `boolify(s)` (data_utils.py lines 12-29): `"True"/"true" → True`,
`"False"/"false" → False`, anything else raises (`none`). -/
def boolify (s : String) : Option Bool :=
  if s = "True" ∨ s = "true" then some true
  else if s = "False" ∨ s = "false" then some false
  else none

/-- `nullify(s)` (lines 32-47): `"None"/"none" → None`, else raises. -/
def nullify (s : String) : Option Unit :=
  if s = "None" ∨ s = "none" then some () else none

/-- Strip leading and trailing whitespace from a character list
(`int()`/`float()` ignore surrounding whitespace). -/
def pyStrip (cs : List Char) : List Char :=
  ((cs.dropWhile Char.isWhitespace).reverse.dropWhile Char.isWhitespace).reverse

/-- The numeric value of a digit string (left fold, base 10). -/
def natOfDigits (cs : List Char) : Nat :=
  cs.foldl (fun a c => a * 10 + (c.toNat - 48)) 0

/-- A nonempty all-digit run, or `none`. -/
def digitsVal : List Char → Option Nat
  | [] => none
  | cs => if cs.all Char.isDigit then some (natOfDigits cs) else none

/-- Python `int(s)`: optional surrounding whitespace, optional sign,
then a nonempty digit run. -/
def pyIntParse (s : String) : Option Int :=
  match pyStrip s.data with
  | [] => none
  | c :: cs =>
      if c = '-' then (digitsVal cs).map (fun n => -(n : Int))
      else if c = '+' then (digitsVal cs).map (fun n => (n : Int))
      else (digitsVal (c :: cs)).map (fun n => (n : Int))

/-- Leading sign: `(is-negative, remainder)`. -/
def parseSign : List Char → Bool × List Char
  | '-' :: cs => (true, cs)
  | '+' :: cs => (false, cs)
  | cs => (false, cs)

/-- Split a float literal at its exponent marker `e`/`E`, if any. -/
def splitExp (cs : List Char) : List Char × Option (List Char) :=
  match cs.span (fun c => !(c = 'e' || c = 'E')) with
  | (mant, []) => (mant, none)
  | (mant, _ :: rest) => (mant, some rest)

/-- An unsigned decimal mantissa: `digits`, `digits.digits`, `.digits`
or `digits.`, with at least one digit overall. -/
def parseMantissa (cs : List Char) : Option Rat :=
  match cs.span Char.isDigit with
  | (ip, []) => if ip.isEmpty then none else some ((natOfDigits ip : Int) : Rat)
  | (ip, '.' :: fp) =>
      if fp.all Char.isDigit ∧ (ip ≠ [] ∨ fp ≠ []) then
        some (((natOfDigits ip * 10 ^ fp.length + natOfDigits fp : Int) : Rat)
                / ((10 ^ fp.length : Int) : Rat))
      else none
  | _ => none

/-- Python `float(s)` on finite decimal literals (optional sign,
decimal mantissa, optional signed exponent). -/
def pyFloatParse (s : String) : Option Rat :=
  let t := parseSign (pyStrip s.data)
  match splitExp t.2 with
  | (mant, expPart) =>
      match parseMantissa mant, expPart with
      | some m, none => some (if t.1 then -m else m)
      | some m, some ecs =>
          match parseSign ecs with
          | (eneg, edigits) =>
              match digitsVal edigits with
              | some e =>
                  let f : Rat := if eneg then m / ((10 : Rat) ^ e) else m * (10 : Rat) ^ e
                  some (if t.1 then -f else f)
              | none => none
      | none, _ => none

/-- The non-list branch of `estimateType` (data_utils.py lines 50-77):
`var = str(var)`, then try `nullify, boolify, int, float` in order and
return the first caster's result; if every caster raises, return the
stringified value itself. -/
def estimateScalar (var : Value) : Value :=
  let s := pyStr var
  match nullify s with
  | some _ => .vNone
  | none =>
      match boolify s with
      | some b => .vBool b
      | none =>
          match pyIntParse s with
          | some n => .vInt n
          | none =>
              match pyFloatParse s with
              | some q => .vRat q
              | none => .vStr s

mutual

/-- `estimateType(var)` (lines 50-77): a one-element list collapses to
the estimate of its single element; any other list maps `estimateType`
over its elements; a non-list goes through the caster chain. -/
def estimateType : Value → Value
  | .vList [x] => estimateType x
  | .vList xs => .vList (estimateTypeList xs)
  | v => estimateScalar v

/-- Elementwise `estimateType` over a list, in order. -/
def estimateTypeList : List Value → List Value
  | [] => []
  | x :: xs => estimateType x :: estimateTypeList xs

end

/-- The positional-argument transformation inside `autocast`'s wrapper
(lines 80-99): `cp = [estimateType(x) for x in c]`. -/
def autocast_args (c : List Value) : List Value := c.map estimateType

/-- The keyword-argument transformation inside `autocast`'s wrapper:
`dp = dict((i, estimateType(j)) for (i, j) in d.items())`. -/
def autocast_kwargs (d : List (String × Value)) : List (String × Value) :=
  d.map (fun p => (p.1, estimateType p.2))

/-- The override layer a stage contributes: the mapping stored under its
`"override"` key, or the empty mapping when the key is absent. -/
def overrideOf (stage : Dict) : Dict :=
  match lookup stage "override" with
  | some (.vDict o) => o
  | _ => []

/-- A value `more_itertools.collapse` treats as an atom: anything that is
neither a list nor a dict (strings are atoms for `collapse`). -/
def isAtom : Value → Bool
  | .vList _ => false
  | .vDict _ => false
  | _ => true

/-- A configuration value with no nesting: an atom, or a list of atoms. -/
def flatValue : Value → Bool
  | .vList xs => xs.all isAtom
  | .vDict _ => false
  | _ => true

/-!
## Library lemmas on the dict model
-/

theorem lookup_setKey_self (d : Dict) (k : String) (v : Value) :
    lookup (setKey d k v) k = some v := by
  induction d with
  | nil => simp [setKey, lookup]
  | cons p rest ih =>
      by_cases h : p.1 = k
      · simp [setKey, h, lookup]
      · simp [setKey, h, lookup, ih]

theorem lookup_setKey_ne (d : Dict) (k k' : String) (v : Value) (h : k' ≠ k) :
    lookup (setKey d k v) k' = lookup d k' := by
  induction d with
  | nil =>
      simp only [setKey, lookup]
      rw [if_neg (Ne.symm h)]
  | cons p rest ih =>
      by_cases hp : p.1 = k
      · subst hp
        simp only [setKey, if_pos rfl, lookup]
        rw [if_neg (Ne.symm h), if_neg (Ne.symm h)]
      · simp only [setKey, if_neg hp, lookup]
        by_cases hp' : p.1 = k'
        · rw [if_pos hp', if_pos hp']
        · rw [if_neg hp', if_neg hp', ih]

theorem lookup_eq_none_of_not_mem_keys (d : Dict) (k : String)
    (h : k ∉ keys d) : lookup d k = none := by
  induction d with
  | nil => simp [lookup]
  | cons p rest ih =>
      simp only [keys, List.map_cons, List.mem_cons] at h
      push_neg at h
      simp only [lookup]
      rw [if_neg (Ne.symm h.1), ih (by simpa [keys] using h.2)]

/-- The semantics of `dict.update`: when the layer `e` has unique keys,
a lookup in `d.update(e)` prefers `e`'s binding and falls back to `d`. -/
theorem lookup_dictUpdate (d e : Dict) (he : keysNodup e) (k : String) :
    lookup (dictUpdate d e) k = (lookup e k).or (lookup d k) := by
  induction e generalizing d with
  | nil => simp [dictUpdate, lookup]
  | cons p rest ih =>
      have hnd : keysNodup rest := by
        simpa [keysNodup, keys] using (List.nodup_cons.mp he).2
      have hnm : p.1 ∉ keys rest := by
        simpa [keysNodup, keys] using (List.nodup_cons.mp he).1
      have : dictUpdate d (p :: rest) = dictUpdate (setKey d p.1 p.2) rest := by
        simp [dictUpdate]
      rw [this, ih _ hnd]
      by_cases hk : p.1 = k
      · subst hk
        rw [lookup_eq_none_of_not_mem_keys rest p.1 hnm]
        simp [lookup, lookup_setKey_self]
      · simp [lookup, hk, lookup_setKey_ne d p.1 k p.2 (fun h => hk h.symm)]


theorem estimateTypeList_eq_map (xs : List Value) :
    estimateTypeList xs = xs.map estimateType := by
  induction xs with
  | nil => rw [estimateTypeList]; rfl
  | cons x rest ih => rw [estimateTypeList, ih]; rfl

theorem cartProd_eq_nil_of_mem_nil (vs : List (List Value)) (h : [] ∈ vs) :
    cartProd vs = [] := by
  induction vs with
  | nil => cases h
  | cons axis rest ih =>
      rcases List.mem_cons.mp h with h1 | h2
      · subst h1; simp [cartProd]
      · simp [cartProd, ih h2]

/-- C3: in `submit_batch`, an `afterok` dependency on the previous handle
is declared if and only if the previous handle is non-null and
`project_config.serial` is true; with `serial` false no dependency clause
is added regardless of the handle. -/
theorem submit_batch_dependency_policy (config : Dict) (project_config : ProjectConfig)
    (running_id : Option String) :
    ((submit_batch config project_config running_id).dependency ≠ none ↔
        running_id ≠ none ∧ project_config.serial = true) ∧
    (∀ h : String, running_id = some h → project_config.serial = true →
        (submit_batch config project_config running_id).dependency = some ("afterok", h)) ∧
    (project_config.serial = false →
        (submit_batch config project_config running_id).dependency = none) := by
  cases running_id with
  | none => cases hs : project_config.serial <;> simp [submit_batch, hs]
  | some rid => cases hs : project_config.serial <;> simp [submit_batch, hs]

theorem submit_batch_dependency_policy_witness :
    (submit_batch [] ⟨true, [], []⟩ (some "123")).dependency = some ("afterok", "123") :=
  (submit_batch_dependency_policy [] ⟨true, [], []⟩ (some "123")).2.1 "123" rfl rfl

/-- C4: `load_config`'s inference policy — `run_args.inference` true forces
`inference = true`; explicitly false with `batch` false forces
`inference = false`; in every other case (absent, or false with `batch`
true) the merged layers are returned untouched. -/
theorem load_config_inference_policy (config stage libraries : Dict) :
    (∀ ra : RunArgs, ra.inference = some true →
        lookup (load_config_merge config stage libraries ra) "inference" =
          some (.vBool true)) ∧
    (∀ ra : RunArgs, ra.inference = some false → ra.batch = false →
        lookup (load_config_merge config stage libraries ra) "inference" =
          some (.vBool false)) ∧
    (∀ ra : RunArgs, ra.inference = none ∨ (ra.inference = some false ∧ ra.batch = true) →
        load_config_merge config stage libraries ra =
          merge_layers config stage libraries) := by
  refine ⟨?_, ?_, ?_⟩
  · intro ra hra
    simp [load_config_merge, hra, lookup_setKey_self]
  · intro ra hra hb
    simp [load_config_merge, hra, hb, lookup_setKey_self]
  · intro ra hra
    rcases hra with hra | ⟨hra, hb⟩
    · simp [load_config_merge, hra]
    · simp [load_config_merge, hra, hb]

theorem load_config_inference_policy_witness :
    lookup (load_config_merge [] [] [] ⟨some true, true⟩) "inference" =
      some (.vBool true) :=
  (load_config_inference_policy [] [] []).1 ⟨some true, true⟩ rfl

/-- C9: `combo_config` on the empty mapping hits the failing tuple
unpacking `keys, values = zip(*total_list.items())` and raises
(modelled by `none`); on every non-empty mapping it returns a list. -/
theorem combo_config_empty_raises :
    combo_config [] = none ∧
    ∀ config : Dict, config ≠ [] → ∃ l, combo_config config = some l := by
  refine ⟨rfl, ?_⟩
  intro config hne
  cases config with
  | nil => exact absurd rfl hne
  | cons p rest => exact ⟨_, rfl⟩

theorem combo_config_empty_raises_witness :
    ∃ l, combo_config [("a", .vInt 1)] = some l :=
  combo_config_empty_raises.2 [("a", .vInt 1)] (by simp)

/-- C7: any key whose value is the empty list collapses the whole
cartesian product, so `combo_config` returns an empty list of run
configurations — a normal return, not an error. -/
theorem combo_config_empty_axis (config : Dict) (k : String)
    (h : (k, Value.vList []) ∈ config) :
    combo_config config = some [] := by
  cases config with
  | nil => cases h
  | cons p rest =>
      have hmem0 : (k, ([] : List Value)) ∈ (p :: rest).map (fun q => (q.1, asAxis q.2)) :=
        List.mem_map.mpr ⟨(k, Value.vList []), h, rfl⟩
      have hmem : ([] : List Value) ∈ ((p :: rest).map (fun q => (q.1, asAxis q.2))).map Prod.snd :=
        List.mem_map.mpr ⟨(k, []), hmem0, rfl⟩
      simp only [combo_config, List.map_cons]
      rw [cartProd_eq_nil_of_mem_nil _ (by simpa using hmem)]
      rfl

theorem combo_config_empty_axis_witness :
    combo_config [("a", Value.vList [])] = some [] :=
  combo_config_empty_axis [("a", Value.vList [])] "a" (by simp)

/-- C10: `estimateType` collapses a one-element list to the estimate of
its single element (`["5"]` becomes the integer `5`, not `[5]`); only
lists of length other than one map to lists; hence the `autocast`
wrapper never passes a singleton-list positional argument through as a
list. -/
theorem estimateType_singleton_collapse :
    (∀ x : Value, estimateType (.vList [x]) = estimateType x) ∧
    estimateType (.vList [.vStr "5"]) = .vInt 5 ∧
    (∀ xs : List Value, xs.length ≠ 1 →
        estimateType (.vList xs) = .vList (xs.map estimateType)) ∧
    (∀ (x : Value) (c : List Value),
        autocast_args (.vList [x] :: c) = estimateType x :: autocast_args c) := by
  refine ⟨?_, rfl, ?_, ?_⟩
  · intro x; rw [estimateType]
  · intro xs hlen
    match xs with
    | [] => simp [estimateType, estimateTypeList_eq_map]
    | [x] => exact absurd rfl hlen
    | x :: y :: rest => simp [estimateType, estimateTypeList_eq_map]
  · intro x c
    simp only [autocast_args, List.map_cons]
    rw [estimateType]

theorem estimateType_singleton_collapse_witness :
    estimateType (.vList []) = .vList [] := by
  have h := estimateType_singleton_collapse.2.2.1 [] (by decide)
  simpa using h

/-- C8: `find_checkpoint` is a tree search for a directory literally
named `run_id`; the first node whose subdirectory listing contains it
yields `<match>/checkpoints/last.ckpt` with no check that the file (or
even the `checkpoints` directory) exists — the concrete tree below
contains neither, yet the path is returned. -/
theorem find_checkpoint_first_match :
    (∀ (rid p nm : String) (subs : List FSTree) (files : List String),
        rid ∈ subs.map FSTree.name →
        find_checkpoint rid p (.dir nm subs files) =
          some (p ++ "/" ++ rid ++ "/checkpoints/last.ckpt")) ∧
    find_checkpoint "run123" "/artifacts" (.dir "artifacts" [.dir "run123" [] []] []) =
      some "/artifacts/run123/checkpoints/last.ckpt" := by
  refine ⟨?_, rfl⟩
  intro rid p nm subs files hmem
  rw [find_checkpoint, walk]
  simp [List.findSome?_cons, hmem]

theorem find_checkpoint_first_match_witness :
    find_checkpoint "r" "/base" (.dir "b" [.dir "x" [] [], .dir "r" [] []] ["f.txt"]) =
      some "/base/r/checkpoints/last.ckpt" :=
  find_checkpoint_first_match.1 "r" "/base" "b" [.dir "x" [] [], .dir "r" [] []]
    ["f.txt"] (by simp [FSTree.name])

theorem hasDirNamedAny_false_forall (rid : String) (ts : List FSTree)
    (h : hasDirNamedAny rid ts = false) : ∀ t ∈ ts, hasDirNamed rid t = false := by
  induction ts with
  | nil => intro t ht; cases ht
  | cons t ts ih =>
      rw [hasDirNamedAny] at h
      rcases Bool.or_eq_false_iff.mp h with ⟨h1, h2⟩
      intro t' ht'
      rcases List.mem_cons.mp ht' with rfl | ht'
      · exact h1
      · exact ih h2 t' ht'

theorem findSome?_walkList_eq_none (rid : String) (ts : List FSTree)
    (h : ∀ t ∈ ts, ∀ p, find_checkpoint rid p t = none) (p : String) :
    (walkList p ts).findSome? (fun rd =>
      if rid ∈ rd.2 then some (rd.1 ++ "/" ++ rid ++ "/checkpoints/last.ckpt")
      else none) = none := by
  induction ts generalizing p with
  | nil => rw [walkList]; rfl
  | cons t ts ih =>
      rw [walkList, List.findSome?_append]
      have h1 := h t (List.mem_cons_self t ts) (p ++ "/" ++ t.name)
      rw [find_checkpoint] at h1
      rw [h1, ih (fun t' ht' => h t' (List.mem_cons_of_mem _ ht'))]
      rfl

theorem find_checkpoint_eq_none_of_no_dir (rid : String) :
    ∀ (n : Nat) (t : FSTree), sizeOf t ≤ n → hasDirNamed rid t = false →
      ∀ p, find_checkpoint rid p t = none := by
  intro n
  induction n with
  | zero =>
      intro t ht
      cases t with
      | dir nm subs files => simp at ht
  | succ n ih =>
      intro t ht hno p
      cases t with
      | dir nm subs files =>
          rw [hasDirNamed] at hno
          rcases Bool.or_eq_false_iff.mp hno with ⟨hA, hB⟩
          have hridmem : rid ∉ subs.map FSTree.name := by
            intro hmem
            rcases List.mem_map.mp hmem with ⟨s, hs, hname⟩
            have hcontra := List.any_eq_false.mp hA s hs
            simp [hname] at hcontra
          have hstep : find_checkpoint rid p (.dir nm subs files) =
              (walkList p subs).findSome? (fun rd =>
                if rid ∈ rd.2 then some (rd.1 ++ "/" ++ rid ++ "/checkpoints/last.ckpt")
                else none) := by
            rw [find_checkpoint, walk, List.findSome?_cons]
            simp [hridmem]
          rw [hstep]
          apply findSome?_walkList_eq_none
          intro t' ht' p'
          have hlt := List.sizeOf_lt_of_mem ht'
          have hsz : sizeOf (FSTree.dir nm subs files) = 1 + sizeOf nm + sizeOf subs + sizeOf files := by
            simp
          exact ih t' (by omega) (hasDirNamedAny_false_forall rid subs hB t' ht') p'

/-- C6: when `load_config` is called with a non-null `resume_id` and no
directory named `resume_id` exists anywhere under the artifact library,
it fails with the checkpoint-not-found error (`find_checkpoint` returns
`None` and the subsequent `torch.load(None, ...)` raises). -/
theorem load_config_checkpoint_not_found (rid : String) (file_config : Dict)
    (logger : Value) (artifact_tree : FSTree) (torch_load : String → Dict)
    (stage libraries : Dict) (ra : RunArgs) (lib : String)
    (hlib : lookup libraries "artifact_library" = some (.vStr lib))
    (hno : hasDirNamed rid artifact_tree = false) :
    load_config (some rid) file_config logger artifact_tree torch_load stage libraries ra =
      .error .checkpointNotFound := by
  simp only [load_config, hlib]
  rw [find_checkpoint_eq_none_of_no_dir rid (sizeOf artifact_tree) artifact_tree
        (le_refl _) hno lib]

theorem load_config_checkpoint_not_found_witness :
    load_config (some "run123") [] .vNone (.dir "artifacts" [.dir "other" [] []] [])
      (fun _ => []) [] [("artifact_library", .vStr "/artifacts")] ⟨none, false⟩ =
      .error .checkpointNotFound :=
  load_config_checkpoint_not_found "run123" [] .vNone
    (.dir "artifacts" [.dir "other" [] []] []) (fun _ => []) []
    [("artifact_library", .vStr "/artifacts")] ⟨none, false⟩ "/artifacts" rfl rfl

/-- C1: last-writer-wins merge precedence of `load_config`.  For any base
configuration (from file or checkpoint), stage descriptor (carrying its
optional `override` mapping), and project library mapping, every key of
the result holds the value of the last layer containing it, in the fixed
order base < override < libraries < stage descriptor, each layer being a
full key-wise overwrite (`dict.update`), with no deep merge. -/
theorem load_config_merge_precedence (config stage libraries : Dict) (ra : RunArgs)
    (k : String)
    (hs : keysNodup stage) (hl : keysNodup libraries) (ho : keysNodup (overrideOf stage))
    (hov : ∀ v, lookup stage "override" = some v → ∃ o, v = Value.vDict o)
    (hra : ra.inference = none) :
    lookup (load_config_merge config stage libraries ra) k =
      ((lookup stage k).or ((lookup libraries k).or
        ((lookup (overrideOf stage) k).or (lookup config k)))) := by
  have hmerge : load_config_merge config stage libraries ra =
      merge_layers config stage libraries := by
    simp [load_config_merge, hra]
  rw [hmerge]
  cases hlook : lookup stage "override" with
  | none =>
      have hov0 : overrideOf stage = [] := by rw [overrideOf, hlook]
      simp only [merge_layers, hlook]
      rw [lookup_dictUpdate _ stage hs, lookup_dictUpdate _ libraries hl, hov0]
      simp [lookup]
  | some v =>
      obtain ⟨o, rfl⟩ := hov v hlook
      have hov0 : overrideOf stage = o := by rw [overrideOf, hlook]
      have ho' : keysNodup o := hov0 ▸ ho
      simp only [merge_layers, hlook]
      rw [lookup_dictUpdate _ stage hs, lookup_dictUpdate _ libraries hl,
        lookup_dictUpdate _ o ho', hov0]

theorem load_config_merge_precedence_witness :
    lookup (load_config_merge [("a", .vInt 1), ("b", .vInt 2)]
      [("override", .vDict [("a", .vInt 10), ("c", .vInt 30)]), ("d", .vInt 4)]
      [("model_library", .vStr "/m")] ⟨none, true⟩) "a" = some (.vInt 10) := by
  have h := load_config_merge_precedence [("a", .vInt 1), ("b", .vInt 2)]
    [("override", .vDict [("a", .vInt 10), ("c", .vInt 30)]), ("d", .vInt 4)]
    [("model_library", .vStr "/m")] ⟨none, true⟩ "a"
    (by decide) (by decide) (by decide)
    (fun v hv => ⟨[("a", Value.vInt 10), ("c", Value.vInt 30)], (Option.some.inj hv).symm⟩)
    rfl
  rw [h]
  rfl

theorem mem_cartProd_length (vs : List (List Value)) (b : List Value)
    (h : b ∈ cartProd vs) : b.length = vs.length := by
  induction vs generalizing b with
  | nil =>
      rw [cartProd] at h
      have hb : b = [] := by simpa using h
      subst hb; rfl
  | cons axis rest ih =>
      rw [cartProd] at h
      rcases List.mem_flatMap.mp h with ⟨x, hx, hmem⟩
      rcases List.mem_map.mp hmem with ⟨b', hb', rfl⟩
      simp [ih b' hb']

theorem mem_cartProd_iff (vs : List (List Value)) (b : List Value) :
    b ∈ cartProd vs ↔ List.Forall₂ (fun x axis => x ∈ axis) b vs := by
  induction vs generalizing b with
  | nil =>
      rw [cartProd]
      constructor
      · intro h
        have hb : b = [] := by simpa using h
        subst hb; exact List.Forall₂.nil
      · intro h; cases h; simp
  | cons axis rest ih =>
      rw [cartProd]
      constructor
      · intro h
        rcases List.mem_flatMap.mp h with ⟨x, hx, hmem⟩
        rcases List.mem_map.mp hmem with ⟨b', hb', rfl⟩
        exact List.Forall₂.cons hx ((ih b').mp hb')
      · intro h
        cases h with
        | cons hx hrest =>
            exact List.mem_flatMap.mpr ⟨_, hx, List.mem_map.mpr ⟨_, (ih _).mpr hrest, rfl⟩⟩

theorem cartProd_length (vs : List (List Value)) :
    (cartProd vs).length = (vs.map List.length).prod := by
  induction vs with
  | nil => rfl
  | cons axis rest ih =>
      rw [cartProd, List.map_cons, List.prod_cons, ← ih]
      induction axis with
      | nil => simp
      | cons x axis ihx =>
          simp only [List.flatMap_cons, List.length_append, List.length_map, ihx,
            List.length_cons]
          ring

theorem zip_forall2_axes (c : Dict) (b : List Value)
    (h : List.Forall₂ (fun x axis => x ∈ axis) b (c.map (fun p => asAxis p.2))) :
    List.Forall₂ (fun (e p : String × Value) => e.1 = p.1 ∧ e.2 ∈ asAxis p.2)
      ((c.map Prod.fst).zip b) c := by
  induction c generalizing b with
  | nil => cases h; exact List.Forall₂.nil
  | cons p rest ih =>
      simp only [List.map_cons] at h ⊢
      cases h with
      | cons hx hrest => exact List.Forall₂.cons ⟨rfl, hx⟩ (ih _ hrest)

theorem forall2_map_snd (c d : Dict)
    (h : List.Forall₂ (fun (e p : String × Value) => e.1 = p.1 ∧ e.2 ∈ asAxis p.2) d c) :
    List.Forall₂ (fun x axis => x ∈ axis) (d.map Prod.snd)
      (c.map (fun p => asAxis p.2)) := by
  induction h with
  | nil => exact List.Forall₂.nil
  | cons h1 h2 ih =>
      simp only [List.map_cons]
      exact List.Forall₂.cons h1.2 ih

theorem zip_fst_snd_of_forall2 (c d : Dict)
    (h : List.Forall₂ (fun (e p : String × Value) => e.1 = p.1 ∧ e.2 ∈ asAxis p.2) d c) :
    (c.map Prod.fst).zip (d.map Prod.snd) = d := by
  induction h with
  | nil => rfl
  | cons h1 h2 ih =>
      simp only [List.map_cons, List.zip_cons_cons, ih]
      rw [← h1.1]

theorem combo_config_eq (c : Dict) (hne : c ≠ []) :
    combo_config c = some ((cartProd (c.map (fun p => asAxis p.2))).map
      (fun bundle => (c.map Prod.fst).zip bundle)) := by
  cases c with
  | nil => exact absurd rfl hne
  | cons p rest =>
      simp [combo_config, List.map_map, Function.comp_def]

/-- C2: `combo_config` treats scalars as singleton axes and lists as-is,
and returns one run configuration per tuple of the cartesian product:
each output keeps the full original key sequence; the output count is
the product of the axis lengths; each output picks, key by key, one
value from that key's axis (and every such choice occurs); and the
concrete mapping `a ↦ [1,2], b ↦ 3` expands to exactly
`[{a:1,b:3}, {a:2,b:3}]` in that order (insertion order of keys,
listed order of values). -/
theorem combo_config_cartesian (config : Dict) (l : List Dict)
    (h : combo_config config = some l) :
    (∀ d ∈ l, keys d = keys config) ∧
    l.length = (config.map (fun p => (asAxis p.2).length)).prod ∧
    (∀ d ∈ l, List.Forall₂ (fun (e p : String × Value) =>
        e.1 = p.1 ∧ e.2 ∈ asAxis p.2) d config) ∧
    (∀ d : Dict, List.Forall₂ (fun (e p : String × Value) =>
        e.1 = p.1 ∧ e.2 ∈ asAxis p.2) d config → d ∈ l) ∧
    combo_config [("a", .vList [.vInt 1, .vInt 2]), ("b", .vInt 3)] =
      some [[("a", .vInt 1), ("b", .vInt 3)], [("a", .vInt 2), ("b", .vInt 3)]] := by
  have hne : config ≠ [] := by
    intro hc; subst hc; simp [combo_config] at h
  have hl : l = (cartProd (config.map (fun p => asAxis p.2))).map
      (fun bundle => (config.map Prod.fst).zip bundle) :=
    Option.some.inj (((combo_config_eq config hne).symm.trans h).symm)
  subst hl
  refine ⟨?_, ?_, ?_, ?_, rfl⟩
  · intro d hd
    rcases List.mem_map.mp hd with ⟨bundle, hb, rfl⟩
    have hlen : bundle.length = config.length := by
      rw [mem_cartProd_length _ _ hb, List.length_map]
    show keys ((config.map Prod.fst).zip bundle) = keys config
    rw [keys, List.map_fst_zip]
    · rfl
    · rw [List.length_map, hlen]
  · rw [List.length_map, cartProd_length, List.map_map]
    rfl
  · intro d hd
    rcases List.mem_map.mp hd with ⟨bundle, hb, rfl⟩
    exact zip_forall2_axes config bundle ((mem_cartProd_iff _ _).mp hb)
  · intro d hd
    refine List.mem_map.mpr ⟨d.map Prod.snd, ?_, ?_⟩
    · exact (mem_cartProd_iff _ _).mpr (forall2_map_snd config d hd)
    · exact zip_fst_snd_of_forall2 config d hd

theorem combo_config_cartesian_witness :
    combo_config [("a", Value.vList [.vInt 1, .vInt 2]), ("b", .vInt 3)] =
      some [[("a", .vInt 1), ("b", .vInt 3)], [("a", .vInt 2), ("b", .vInt 3)]] :=
  (combo_config_cartesian [("a", Value.vList [.vInt 1, .vInt 2]), ("b", .vInt 3)]
    [[("a", .vInt 1), ("b", .vInt 3)], [("a", .vInt 2), ("b", .vInt 3)]] rfl).2.2.2.2

theorem pyCollapse_atom (v : Value) (h : isAtom v = true) : pyCollapse v = [v] := by
  cases v <;> first | rfl | simp [isAtom] at h

theorem pyCollapseList_atoms (xs : List Value) (h : ∀ x ∈ xs, isAtom x = true) :
    pyCollapseList xs = xs := by
  induction xs with
  | nil => rfl
  | cons x xs ih =>
      rw [pyCollapseList, pyCollapse_atom x (h x (List.mem_cons_self x xs)),
        ih (fun y hy => h y (List.mem_cons_of_mem _ hy))]
      rfl

theorem dict_to_args_tokens (config : Dict) (h : ∀ p ∈ config, flatValue p.2 = true) :
    (pyCollapseList (config.map (fun p => Value.vList [.vStr ("--" ++ p.1), p.2]))).map pyStr =
      config.flatMap (fun p =>
        ("--" ++ p.1) ::
          match p.2 with
          | .vList xs => xs.map pyStr
          | v => [pyStr v]) := by
  induction config with
  | nil => rfl
  | cons p rest ih =>
      have hc : pyCollapse (Value.vList [Value.vStr ("--" ++ p.1), p.2]) =
          Value.vStr ("--" ++ p.1) :: (pyCollapse p.2 ++ []) := rfl
      rw [List.append_nil] at hc
      rw [List.map_cons, pyCollapseList, List.map_append, List.flatMap_cons,
        ih (fun q hq => h q (List.mem_cons_of_mem _ hq)), hc]
      congr 1
      have hflat := h p (List.mem_cons_self p rest)
      cases hp2 : p.2 with
      | vList xs =>
          rw [hp2] at hflat
          rw [pyCollapse, pyCollapseList_atoms xs (List.all_eq_true.mp hflat)]
          rfl
      | vDict d => rw [hp2] at hflat; simp [flatValue] at hflat
      | vNone => rfl
      | vBool b => rfl
      | vInt n => rfl
      | vRat q => rfl
      | vStr s => rfl

/-- C5 counterexample: the claim reads `dict_to_args` as emitting, for a
list value, one token per element — formalised by `dict_to_args_spec`.
On the nested-list mapping `y ↦ [[1, 2]]` the claimed serialization is
`--y [1, 2]` (one token for the single element), but the code's
`more_itertools.collapse` flattens through every nesting level and
produces `--y 1 2`, so the claim is false as stated. -/
theorem dict_to_args_nested_counterexample :
    dict_to_args [("y", .vList [.vList [.vInt 1, .vInt 2]])] = "--y 1 2" ∧
    dict_to_args_spec [("y", .vList [.vList [.vInt 1, .vInt 2]])] = "--y [1, 2]" ∧
    dict_to_args [("y", .vList [.vList [.vInt 1, .vInt 2]])] ≠
      dict_to_args_spec [("y", .vList [.vList [.vInt 1, .vInt 2]])] := by
  refine ⟨rfl, rfl, ?_⟩
  decide

/-- C5 (amended): for every configuration whose values are scalars or
flat lists of scalars, `dict_to_args` emits `--key` followed by one
token per element for a list value and one token for a scalar value, in
key order — deeply nested lists are instead flattened to one token per
leaf.  In particular `{x: 1, y: [2, 3]}` serializes to
`"--x 1 --y 2 3"`. -/
theorem dict_to_args_flat_serialization :
    (∀ config : Dict, (∀ p ∈ config, flatValue p.2 = true) →
        dict_to_args config = dict_to_args_spec config) ∧
    dict_to_args [("x", .vInt 1), ("y", .vList [.vInt 2, .vInt 3])] = "--x 1 --y 2 3" := by
  refine ⟨?_, rfl⟩
  intro config h
  simp only [dict_to_args, dict_to_args_spec]
  rw [dict_to_args_tokens config h]

theorem dict_to_args_flat_serialization_witness :
    dict_to_args [("x", .vInt 1), ("y", .vList [.vStr "a", .vStr "b"])] =
      dict_to_args_spec [("x", .vInt 1), ("y", .vList [.vStr "a", .vStr "b"])] :=
  dict_to_args_flat_serialization.1
    [("x", .vInt 1), ("y", .vList [.vStr "a", .vStr "b"])] (by decide)
